import Mathlib

/-!
# Verification of the paginated product-catalog scraper (`src/main.go`)

Shallow embedding of the Go program in `src/main.go`: a pagination loop
(`scrapeProducts`) that repeatedly calls a page extractor
(`extractProductsFromPage`, whose DOM work is done by the JavaScript constant
`extractJSContent`), deduplicates records by URL
(`addProductsWithoutDuplicates`), and stops on an error, an empty page, a page
with no new unique records, or a full budget.

Modelling choices:
* Go slices and the `seen` set (`map[string]struct{}`) become Lean lists; the
  map is used only for membership tests and insertion, so a list of URLs with
  `∈` is an exact model.
* Go `error` values become `Except String`; `fmt.Errorf` wrapping becomes
  string concatenation with the same format text.
* The browser session is the collaborator seam: `scrapeProducts` takes the
  extractor as a function `Nat → Except String (List Product)`, exactly the
  contract the Go loop uses.
* The Go `for` loop is embedded with an explicit fuel argument; `scrapeLoop`
  returns `none` when the fuel runs out with the loop still wanting to
  iterate, and `scrapeLoop_total` proves that `maxProducts + 1` fuel always
  suffices, so the fuelled definition is the loop's true value.
* Go `float64` becomes `Float`, carried opaquely: the rating average is data
  that flows through the loop, and no theorem computes with it.
-/

/-- `Product` mirrors the Go struct `Product` (`src/main.go` lines 13-20):
url, name, image, price, rating average (`float64`, modelled as `Float`) and
rating count (`int`, modelled as `Int`). The URL is the deduplication key. -/
structure Product where
  url : String
  name : String
  image : String
  price : String
  ratingAvg : Float
  ratingCount : Int

/-- The data the extraction script reads off one `.grid-product` DOM element
(`extractJSContent`, `src/main.go` lines 134-166): the product link's `href`
(none if no `a.grid-product__link` matches), the trimmed title text, the
resolved `src` when the matched image element is an `IMG` tag (none
otherwise), the trimmed price text, and the `.jdgm-prev-badge` rating badge
if present, with its two numeric attributes pre-parsed (none when the
attribute is absent or empty, matching the script's falsy test). -/
structure GridElem where
  link : Option String
  titleText : Option String
  imageSrc : Option String
  priceText : Option String
  ratingBadge : Option (Option Float × Option Int)

/-- The record the script builds for one element (`src/main.go` lines
142-165): every missing piece defaults to the empty string, and a missing
badge or attribute defaults the rating average / count to zero. -/
def gridElemToRecord (el : GridElem) : Product :=
  { url := el.link.getD ""
    name := el.titleText.getD ""
    image := el.imageSrc.getD ""
    price := el.priceText.getD ""
    ratingAvg :=
      match el.ratingBadge with
      | none => 0
      | some (avg, _) => avg.getD 0
    ratingCount :=
      match el.ratingBadge with
      | none => 0
      | some (_, cnt) => cnt.getD 0 }

/-- JavaScript `p.url.includes('/products/')` (`src/main.go` line 166):
the URL contains `/products/` as a substring. -/
def hasProductsSubstr (s : String) : Bool :=
  decide (("/products/").data <:+: s.data)

/-- The final filter and map of the extraction script (`src/main.go` lines
135, 158-166): build one record per `.grid-product` element, then keep only
records whose URL is truthy (non-empty) and contains `/products/`. -/
def extractJSContent (elems : List GridElem) : List Product :=
  (elems.map gridElemToRecord).filter fun p =>
    (p.url != "") && hasProductsSubstr p.url

/-- Outcome of driving the browser to one page: either navigation, the
readiness wait, the visibility wait or the script evaluation fails
(`chromedp.Run` returns an error), or the page renders and the script sees a
list of `.grid-product` elements. -/
inductive PageOutcome where
  | loadError (cause : String)
  | loaded (elems : List GridElem)

/-- `extractProductsFromPage` (`src/main.go` lines 77-92): run the browser
against page `page`; on failure wrap the cause with the page number, on
success return the records the script extracted. The browser is modelled by
the oracle `site` mapping each page index to its outcome. -/
def extractProductsFromPage (site : Nat → PageOutcome) (page : Nat) :
    Except String (List Product) :=
  match site page with
  | PageOutcome.loadError cause =>
      Except.error ("failed to navigate or evaluate page " ++ toString page ++ ": " ++ cause)
  | PageOutcome.loaded elems => Except.ok (extractJSContent elems)

/-- `addProductsWithoutDuplicates` (`src/main.go` lines 94-107). Go mutates
`*products` and `seen` in place and returns the number of records added; the
model returns the updated catalog, the updated seen set, and that count. As
in Go, the budget check `len(*products) >= maxProducts` runs before the
duplicate test on every record and breaks out of the page. -/
def addProductsWithoutDuplicates (products pageProducts : List Product)
    (seen : List String) (maxProducts : Nat) :
    List Product × List String × Nat :=
  match pageProducts with
  | [] => (products, seen, 0)
  | p :: rest =>
    if maxProducts ≤ products.length then
      (products, seen, 0)
    else if p.url ∈ seen then
      addProductsWithoutDuplicates products rest seen maxProducts
    else
      let r := addProductsWithoutDuplicates (products ++ [p]) rest
        (p.url :: seen) maxProducts
      (r.1, r.2.1, r.2.2 + 1)

/-- The `for` loop of `scrapeProducts` (`src/main.go` lines 50-71), with an
explicit fuel argument: `none` means the fuel ran out with the loop still
iterating (`scrapeLoop_total` below shows `maxProducts + 1` fuel always
suffices). Besides the Go result (`Except` of catalog or wrapped page error),
it returns the list of page indices passed to the extractor, in call order;
the Go code determines this sequence but does not return it, and claims about
which pages get fetched are stated against it. -/
def scrapeLoop (extract : Nat → Except String (List Product))
    (maxProducts : Nat) :
    Nat → Nat → List Product → List String →
      Option (List Nat × Except String (List Product))
  | 0, _, _, _ => none
  | fuel + 1, page, products, seen =>
    if maxProducts ≤ products.length then
      some ([], Except.ok products)
    else
      match extract page with
      | Except.error e =>
          some ([page],
            Except.error ("error scraping page " ++ toString page ++ ": " ++ e))
      | Except.ok pageProducts =>
        if pageProducts.isEmpty then
          some ([page], Except.ok products)
        else
          let r := addProductsWithoutDuplicates products pageProducts seen maxProducts
          if r.2.2 = 0 ∧ 0 < r.1.length then
            some ([page], Except.ok r.1)
          else
            match scrapeLoop extract maxProducts fuel (page + 1) r.1 r.2.1 with
            | none => none
            | some (tr, res) => some (page :: tr, res)

/-- One whole run of `scrapeProducts` (`src/main.go` lines 45-74), with its
call trace: page 1, empty catalog, empty seen set, and enough fuel for the
loop to finish on its own. -/
def scrapeRun (extract : Nat → Except String (List Product))
    (maxProducts : Nat) :
    Option (List Nat × Except String (List Product)) :=
  scrapeLoop extract maxProducts (maxProducts + 1) 1 [] []

/-- `scrapeProducts` (`src/main.go` lines 45-74): the result component of the
run. The `getD` default is never reached: `scrapeLoop_total` proves the run
is always `some`. Go's `return nil, err` on a page error is the
`Except.error` branch, which carries no catalog. -/
def scrapeProducts (extract : Nat → Except String (List Product))
    (maxProducts : Nat) : Except String (List Product) :=
  ((scrapeRun extract maxProducts).getD ([], Except.ok [])).2

/-- The sequence of page indices the run passes to the extractor, in call
order. -/
def pagesCalled (extract : Nat → Except String (List Product))
    (maxProducts : Nat) : List Nat :=
  ((scrapeRun extract maxProducts).getD ([], Except.ok [])).1

/-! ## Concrete collaborators used by witness runs -/

/-- Sample record used by concrete runs: a URL and default other fields. -/
def mkProduct (u : String) : Product := ⟨u, "", "", "", 0, 0⟩

/-- Scenario A collaborator: page 1 serves three unique records, page 2
three more, later pages nothing. -/
def extractScenarioA : Nat → Except String (List Product) := fun p =>
  if p = 1 then
    Except.ok [mkProduct "/products/a", mkProduct "/products/b", mkProduct "/products/c"]
  else if p = 2 then
    Except.ok [mkProduct "/products/d", mkProduct "/products/e", mkProduct "/products/f"]
  else Except.ok []

/-- Scenario B collaborator: page 1 serves the same URL twice. -/
def extractScenarioB : Nat → Except String (List Product) := fun p =>
  if p = 1 then Except.ok [mkProduct "/products/a", mkProduct "/products/a"]
  else Except.ok []

/-- Scenario C collaborator: every page serves the identical two records. -/
def extractScenarioC : Nat → Except String (List Product) := fun _ =>
  Except.ok [mkProduct "/products/a", mkProduct "/products/b"]

/-- Scenario D collaborator: page 1 serves two records, every later page
fails to load. -/
def extractScenarioD : Nat → Except String (List Product) := fun p =>
  if p = 1 then Except.ok [mkProduct "/products/a", mkProduct "/products/b"]
  else Except.error "page load failed"

/-- Scenario E collaborator: every page is empty. -/
def extractScenarioE : Nat → Except String (List Product) := fun _ => Except.ok []

/-- A grid element that links to a product page. -/
def gridElemA : GridElem :=
  ⟨some "https://raidlight.com/products/a", some "Product A",
    some "https://raidlight.com/a.jpg", some "90 EUR", none⟩

/-- A site whose every page renders exactly this one grid element. -/
def siteOneProduct : Nat → PageOutcome := fun _ => PageOutcome.loaded [gridElemA]

/-- A collaborator with one record on page 1 and nothing afterwards. -/
def extractOnePage : Nat → Except String (List Product) := fun p =>
  if p = 1 then Except.ok [mkProduct "/products/a"] else Except.ok []

/-- A collaborator that always serves nothing. -/
def extractNothingPlain : Nat → Except String (List Product) := fun _ => Except.ok []

/-- The same collaborator written with a redundant case split. -/
def extractNothingSplit : Nat → Except String (List Product) := fun p =>
  if p = 0 then Except.ok [] else Except.ok []

/-! ## Structure of one page merge -/

/-- One page merge appends a subsequence of the page (in page order) to the
catalog, and the count it returns is the number of appended records. -/
theorem addProducts_spec (pageProducts : List Product) :
    ∀ (products : List Product) (seen : List String) (maxProducts : Nat),
      ∃ new : List Product,
        (addProductsWithoutDuplicates products pageProducts seen maxProducts).1
            = products ++ new ∧
        new.Sublist pageProducts ∧
        new.length
            = (addProductsWithoutDuplicates products pageProducts seen maxProducts).2.2 := by
  induction pageProducts with
  | nil =>
    intro products seen maxProducts
    exact ⟨[], by simp [addProductsWithoutDuplicates]⟩
  | cons p rest ih =>
    intro products seen maxProducts
    by_cases hfull : maxProducts ≤ products.length
    · exact ⟨[], by simp [addProductsWithoutDuplicates, hfull]⟩
    · by_cases hseen : p.url ∈ seen
      · obtain ⟨new, h1, h2, h3⟩ := ih products seen maxProducts
        refine ⟨new, ?_, h2.cons p, ?_⟩
        · simpa [addProductsWithoutDuplicates, hfull, hseen] using h1
        · simpa [addProductsWithoutDuplicates, hfull, hseen] using h3
      · obtain ⟨new, h1, h2, h3⟩ := ih (products ++ [p]) (p.url :: seen) maxProducts
        refine ⟨p :: new, ?_, h2.cons₂ p, ?_⟩
        · simp [addProductsWithoutDuplicates, hfull, hseen, h1]
        · simp [addProductsWithoutDuplicates, hfull, hseen, ← h3]

/-- One page merge never pushes the catalog past the budget. -/
theorem addProducts_length_le (pageProducts : List Product) :
    ∀ (products : List Product) (seen : List String) (maxProducts : Nat),
      products.length ≤ maxProducts →
      (addProductsWithoutDuplicates products pageProducts seen maxProducts).1.length
        ≤ maxProducts := by
  induction pageProducts with
  | nil => intro products seen m h; simpa [addProductsWithoutDuplicates] using h
  | cons p rest ih =>
    intro products seen m h
    by_cases hfull : m ≤ products.length
    · simpa [addProductsWithoutDuplicates, hfull] using h
    · by_cases hseen : p.url ∈ seen
      · simpa [addProductsWithoutDuplicates, hfull, hseen] using ih products seen m h
      · have hlen : (products ++ [p]).length ≤ m := by
          simp only [List.length_append, List.length_singleton]
          omega
        simpa [addProductsWithoutDuplicates, hfull, hseen] using
          ih (products ++ [p]) (p.url :: seen) m hlen

/-- A page merge that added nothing left both the catalog and the seen set
unchanged. -/
theorem addProducts_zero (pageProducts : List Product) :
    ∀ (products : List Product) (seen : List String) (maxProducts : Nat),
      (addProductsWithoutDuplicates products pageProducts seen maxProducts).2.2 = 0 →
      (addProductsWithoutDuplicates products pageProducts seen maxProducts).1 = products ∧
      (addProductsWithoutDuplicates products pageProducts seen maxProducts).2.1 = seen := by
  induction pageProducts with
  | nil => intro products seen m _; simp [addProductsWithoutDuplicates]
  | cons p rest ih =>
    intro products seen m h
    by_cases hfull : m ≤ products.length
    · simp [addProductsWithoutDuplicates, hfull]
    · by_cases hseen : p.url ∈ seen
      · have h' : (addProductsWithoutDuplicates products rest seen m).2.2 = 0 := by
          simpa [addProductsWithoutDuplicates, hfull, hseen] using h
        simpa [addProductsWithoutDuplicates, hfull, hseen] using ih products seen m h'
      · exfalso
        simp [addProductsWithoutDuplicates, hfull, hseen] at h

/-- Merging a non-empty page into an empty catalog with an empty seen set
and a positive budget adds at least one record. -/
theorem addProducts_pos (p : Product) (rest : List Product) (maxProducts : Nat)
    (hm : 0 < maxProducts) :
    0 < (addProductsWithoutDuplicates [] (p :: rest) [] maxProducts).2.2 := by
  simp [addProductsWithoutDuplicates, Nat.not_le.mpr hm]

/-! ## Totality of the fuelled loop -/
/-- With the invariant that an empty catalog means an empty seen set, fuel
exceeding the remaining budget is enough: every iteration either stops or
grows the catalog by at least one record. -/
theorem scrapeLoop_total (extract : Nat → Except String (List Product))
    (maxProducts : Nat) :
    ∀ (fuel page : Nat) (products : List Product) (seen : List String),
      products.length ≤ maxProducts →
      (products = [] → seen = []) →
      maxProducts - products.length < fuel →
      (scrapeLoop extract maxProducts fuel page products seen).isSome := by
  intro fuel
  induction fuel with
  | zero =>
    intro page products seen _ _ hfuel
    exact absurd hfuel (Nat.not_lt_zero _)
  | succ fuel ih =>
    intro page products seen hlen hinv hfuel
    rw [scrapeLoop]
    by_cases hfull : maxProducts ≤ products.length
    · simp [hfull]
    · rw [if_neg hfull]
      cases hx : extract page with
      | error e => simp
      | ok pageProducts =>
        cases pageProducts with
        | nil => simp
        | cons p rest =>
          simp only [List.isEmpty_cons, Bool.false_eq_true, if_false]
          set A := addProductsWithoutDuplicates products (p :: rest) seen maxProducts with hA
          by_cases hstop : A.2.2 = 0 ∧ 0 < A.1.length
          · simp [hstop]
          · rw [if_neg hstop]
            have hpos : 0 < A.2.2 := by
              rcases Nat.eq_zero_or_pos A.2.2 with hz | hp
              · exfalso
                obtain ⟨he1, he2⟩ := addProducts_zero (p :: rest) products seen maxProducts (hA ▸ hz)
                have hlen0 : products.length = 0 := by
                  by_contra hne
                  exact hstop ⟨hz, by rw [hA, he1]; omega⟩
                have hpnil : products = [] := List.length_eq_zero.mp hlen0
                have hsnil : seen = [] := hinv hpnil
                have := addProducts_pos p rest maxProducts (by omega)
                rw [← hpnil, ← hsnil] at this
                rw [hA] at hz
                omega
              · exact hp
            obtain ⟨new, hnew1, _, hnew3⟩ := addProducts_spec (p :: rest) products seen maxProducts
            have hlenA : A.1.length = products.length + A.2.2 := by
              rw [hA, hnew1, List.length_append, hnew3]
            have h1 : A.1.length ≤ maxProducts :=
              hA ▸ addProducts_length_le (p :: rest) products seen maxProducts hlen
            have h2 : A.1 = [] → A.2.1 = [] := by
              intro hempty
              exfalso
              have : A.1.length = 0 := by rw [hempty]; rfl
              omega
            have h3 : maxProducts - A.1.length < fuel := by omega
            obtain ⟨v, hv⟩ := Option.isSome_iff_exists.mp (ih (page + 1) A.1 A.2.1 h1 h2 h3)
            rw [hv]
            obtain ⟨tr, res⟩ := v
            simp

/-- The seen set stays exactly the set of catalog URLs, and catalog URLs stay
pairwise distinct, across one page merge. -/
theorem addProducts_seen_nodup (pageProducts : List Product) :
    ∀ (products : List Product) (seen : List String) (maxProducts : Nat),
      (∀ u, u ∈ seen ↔ ∃ q ∈ products, q.url = u) →
      (products.map Product.url).Nodup →
      (∀ u, u ∈ (addProductsWithoutDuplicates products pageProducts seen maxProducts).2.1 ↔
          ∃ q ∈ (addProductsWithoutDuplicates products pageProducts seen maxProducts).1, q.url = u) ∧
      ((addProductsWithoutDuplicates products pageProducts seen maxProducts).1.map Product.url).Nodup := by
  induction pageProducts with
  | nil =>
    intro products seen m hinv hnd
    exact ⟨hinv, hnd⟩
  | cons p rest ih =>
    intro products seen m hinv hnd
    by_cases hfull : m ≤ products.length
    · have he : addProductsWithoutDuplicates products (p :: rest) seen m = (products, seen, 0) := by
        rw [addProductsWithoutDuplicates, if_pos hfull]
      rw [he]
      exact ⟨hinv, hnd⟩
    · by_cases hseen : p.url ∈ seen
      · have he : addProductsWithoutDuplicates products (p :: rest) seen m =
            addProductsWithoutDuplicates products rest seen m := by
          rw [addProductsWithoutDuplicates, if_neg hfull, if_pos hseen]
        rw [he]
        exact ih products seen m hinv hnd
      · have hnotmem : p.url ∉ products.map Product.url := by
          intro hmem
          apply hseen
          rw [hinv]
          rcases List.mem_map.mp hmem with ⟨q, hq, hqu⟩
          exact ⟨q, hq, hqu⟩
        have hinv2 : ∀ u, u ∈ p.url :: seen ↔ ∃ q ∈ products ++ [p], q.url = u := by
          intro u
          rw [List.mem_cons, hinv u]
          constructor
          · rintro (h | ⟨q, hq, hqu⟩)
            · exact ⟨p, by simp, h.symm⟩
            · exact ⟨q, by simp [hq], hqu⟩
          · rintro ⟨q, hq, hqu⟩
            rcases List.mem_append.mp hq with h | h
            · exact Or.inr ⟨q, h, hqu⟩
            · left
              rw [List.mem_singleton] at h
              subst h
              exact hqu.symm
        have hnd2 : ((products ++ [p]).map Product.url).Nodup := by
          rw [List.map_append, List.nodup_append]
          exact ⟨hnd, by simp, by simpa using hnotmem⟩
        have he : addProductsWithoutDuplicates products (p :: rest) seen m =
            ((addProductsWithoutDuplicates (products ++ [p]) rest (p.url :: seen) m).1,
             (addProductsWithoutDuplicates (products ++ [p]) rest (p.url :: seen) m).2.1,
             (addProductsWithoutDuplicates (products ++ [p]) rest (p.url :: seen) m).2.2 + 1) := by
          rw [addProductsWithoutDuplicates, if_neg hfull, if_neg hseen]
        rw [he]
        exact ih (products ++ [p]) (p.url :: seen) m hinv2 hnd2

/-! ## Run-level helpers -/

/-- Every run finishes: `maxProducts + 1` fuel is enough from the initial
state. -/
theorem scrapeRun_eq_some (extract : Nat → Except String (List Product))
    (maxProducts : Nat) :
    ∃ tr res, scrapeRun extract maxProducts = some (tr, res) := by
  have h := scrapeLoop_total extract maxProducts (maxProducts + 1) 1 [] []
    (by simp) (fun _ => rfl) (by simp)
  obtain ⟨v, hv⟩ := Option.isSome_iff_exists.mp h
  obtain ⟨tr, res⟩ := v
  exact ⟨tr, res, hv⟩

/-- The result and trace of `scrapeProducts` / `pagesCalled` are the ones in
the run. -/
theorem scrapeRun_spec (extract : Nat → Except String (List Product))
    (maxProducts : Nat) (tr : List Nat) (res : Except String (List Product))
    (h : scrapeRun extract maxProducts = some (tr, res)) :
    scrapeProducts extract maxProducts = res ∧
    pagesCalled extract maxProducts = tr := by
  constructor
  · rw [scrapeProducts, h]
    rfl
  · rw [pagesCalled, h]
    rfl

/-- If a page in the call trace fails, the loop result is exactly that page
wrapped error: the loop stops at the first failing call, so the failing page
is the last one called and its error is the whole result. -/
theorem scrapeLoop_error_mem (extract : Nat → Except String (List Product))
    (maxProducts p : Nat) (e : String) :
    ∀ (fuel page : Nat) (products : List Product) (seen : List String)
      (tr : List Nat) (res : Except String (List Product)),
      scrapeLoop extract maxProducts fuel page products seen = some (tr, res) →
      p ∈ tr → extract p = Except.error e →
      res = Except.error ("error scraping page " ++ toString p ++ ": " ++ e) := by
  intro fuel
  induction fuel with
  | zero =>
    intro page products seen tr res h _ _
    simp [scrapeLoop] at h
  | succ fuel ih =>
    intro page products seen tr res h hmem he
    rw [scrapeLoop] at h
    by_cases hfull : maxProducts ≤ products.length
    · rw [if_pos hfull] at h
      simp only [Option.some.injEq, Prod.mk.injEq] at h
      obtain ⟨h1, _⟩ := h
      subst h1
      simp at hmem
    · rw [if_neg hfull] at h
      cases hx : extract page with
      | error e2 =>
        rw [hx] at h
        simp only [Option.some.injEq, Prod.mk.injEq] at h
        obtain ⟨h1, h2⟩ := h
        subst h1
        rw [List.mem_singleton] at hmem
        subst hmem
        rw [he] at hx
        have he2 : e = e2 := by
          injection hx with h3
        subst he2
        exact h2.symm
      | ok pageProducts =>
        rw [hx] at h
        cases pageProducts with
        | nil =>
          simp only [List.isEmpty_nil, if_true, Option.some.injEq, Prod.mk.injEq] at h
          obtain ⟨h1, _⟩ := h
          subst h1
          rw [List.mem_singleton] at hmem
          subst hmem
          rw [he] at hx
          simp at hx
        | cons q rest =>
          simp only [List.isEmpty_cons, Bool.false_eq_true, if_false] at h
          set A := addProductsWithoutDuplicates products (q :: rest) seen maxProducts with hA
          by_cases hstop : A.2.2 = 0 ∧ 0 < A.1.length
          · rw [if_pos hstop] at h
            simp only [Option.some.injEq, Prod.mk.injEq] at h
            obtain ⟨h1, _⟩ := h
            subst h1
            rw [List.mem_singleton] at hmem
            subst hmem
            rw [he] at hx
            simp at hx
          · rw [if_neg hstop] at h
            cases hrec : scrapeLoop extract maxProducts fuel (page + 1) A.1 A.2.1 with
            | none =>
              rw [hrec] at h
              simp at h
            | some v =>
              obtain ⟨tr2, res2⟩ := v
              rw [hrec] at h
              simp only [Option.some.injEq, Prod.mk.injEq] at h
              obtain ⟨h1, h2⟩ := h
              subst h1
              subst h2
              rcases List.mem_cons.mp hmem with hp | hp
              · subst hp
                rw [he] at hx
                simp at hx
              · exact ih (page + 1) A.1 A.2.1 tr2 res2 hrec hp he

/-- The catalog the loop returns never exceeds the budget. -/
theorem scrapeLoop_length (extract : Nat → Except String (List Product))
    (maxProducts : Nat) :
    ∀ (fuel page : Nat) (products : List Product) (seen : List String)
      (tr : List Nat) (catalog : List Product),
      scrapeLoop extract maxProducts fuel page products seen = some (tr, Except.ok catalog) →
      products.length ≤ maxProducts →
      catalog.length ≤ maxProducts := by
  intro fuel
  induction fuel with
  | zero =>
    intro page products seen tr catalog h _
    simp [scrapeLoop] at h
  | succ fuel ih =>
    intro page products seen tr catalog h hlen
    rw [scrapeLoop] at h
    by_cases hfull : maxProducts ≤ products.length
    · rw [if_pos hfull] at h
      simp only [Option.some.injEq, Prod.mk.injEq, Except.ok.injEq] at h
      obtain ⟨_, h2⟩ := h
      subst h2
      exact hlen
    · rw [if_neg hfull] at h
      cases hx : extract page with
      | error e =>
        rw [hx] at h
        simp at h
      | ok pageProducts =>
        rw [hx] at h
        cases pageProducts with
        | nil =>
          simp only [List.isEmpty_nil, if_true, Option.some.injEq, Prod.mk.injEq,
            Except.ok.injEq] at h
          obtain ⟨_, h2⟩ := h
          subst h2
          exact hlen
        | cons q rest =>
          simp only [List.isEmpty_cons, Bool.false_eq_true, if_false] at h
          set A := addProductsWithoutDuplicates products (q :: rest) seen maxProducts with hA
          have hAlen : A.1.length ≤ maxProducts :=
            hA ▸ addProducts_length_le (q :: rest) products seen maxProducts hlen
          by_cases hstop : A.2.2 = 0 ∧ 0 < A.1.length
          · rw [if_pos hstop] at h
            simp only [Option.some.injEq, Prod.mk.injEq, Except.ok.injEq] at h
            obtain ⟨_, h2⟩ := h
            subst h2
            exact hAlen
          · rw [if_neg hstop] at h
            cases hrec : scrapeLoop extract maxProducts fuel (page + 1) A.1 A.2.1 with
            | none =>
              rw [hrec] at h
              simp at h
            | some v =>
              obtain ⟨tr2, res2⟩ := v
              rw [hrec] at h
              simp only [Option.some.injEq, Prod.mk.injEq] at h
              obtain ⟨_, h2⟩ := h
              subst h2
              exact ih (page + 1) A.1 A.2.1 tr2 catalog hrec hAlen

/-- URLs in the returned catalog are pairwise distinct, given the seen set
matches the catalog so far. -/
theorem scrapeLoop_nodup (extract : Nat → Except String (List Product))
    (maxProducts : Nat) :
    ∀ (fuel page : Nat) (products : List Product) (seen : List String)
      (tr : List Nat) (catalog : List Product),
      scrapeLoop extract maxProducts fuel page products seen = some (tr, Except.ok catalog) →
      (∀ u, u ∈ seen ↔ ∃ q ∈ products, q.url = u) →
      (products.map Product.url).Nodup →
      (catalog.map Product.url).Nodup := by
  intro fuel
  induction fuel with
  | zero =>
    intro page products seen tr catalog h _ _
    simp [scrapeLoop] at h
  | succ fuel ih =>
    intro page products seen tr catalog h hinv hnd
    rw [scrapeLoop] at h
    by_cases hfull : maxProducts ≤ products.length
    · rw [if_pos hfull] at h
      simp only [Option.some.injEq, Prod.mk.injEq, Except.ok.injEq] at h
      obtain ⟨_, h2⟩ := h
      subst h2
      exact hnd
    · rw [if_neg hfull] at h
      cases hx : extract page with
      | error e =>
        rw [hx] at h
        simp at h
      | ok pageProducts =>
        rw [hx] at h
        cases pageProducts with
        | nil =>
          simp only [List.isEmpty_nil, if_true, Option.some.injEq, Prod.mk.injEq,
            Except.ok.injEq] at h
          obtain ⟨_, h2⟩ := h
          subst h2
          exact hnd
        | cons q rest =>
          simp only [List.isEmpty_cons, Bool.false_eq_true, if_false] at h
          set A := addProductsWithoutDuplicates products (q :: rest) seen maxProducts with hA
          have hkeep := addProducts_seen_nodup (q :: rest) products seen maxProducts hinv hnd
          rw [← hA] at hkeep
          by_cases hstop : A.2.2 = 0 ∧ 0 < A.1.length
          · rw [if_pos hstop] at h
            simp only [Option.some.injEq, Prod.mk.injEq, Except.ok.injEq] at h
            obtain ⟨_, h2⟩ := h
            subst h2
            exact hkeep.2
          · rw [if_neg hstop] at h
            cases hrec : scrapeLoop extract maxProducts fuel (page + 1) A.1 A.2.1 with
            | none =>
              rw [hrec] at h
              simp at h
            | some v =>
              obtain ⟨tr2, res2⟩ := v
              rw [hrec] at h
              simp only [Option.some.injEq, Prod.mk.injEq] at h
              obtain ⟨_, h2⟩ := h
              subst h2
              exact ih (page + 1) A.1 A.2.1 tr2 catalog hrec hkeep.1 hkeep.2

/-- A successful loop result decomposes page by page: the catalog is the
state it started from followed by one chunk per called page, each chunk a
subsequence (in source order) of what the extractor returned for that page. -/
theorem scrapeLoop_chunks (extract : Nat → Except String (List Product))
    (maxProducts : Nat) :
    ∀ (fuel page : Nat) (products : List Product) (seen : List String)
      (tr : List Nat) (catalog : List Product),
      scrapeLoop extract maxProducts fuel page products seen = some (tr, Except.ok catalog) →
      ∃ chunks : List (List Product),
        catalog = products ++ chunks.flatten ∧
        List.Forall₂ (fun pg chunk => ∃ recs,
          extract pg = Except.ok recs ∧ chunk.Sublist recs) tr chunks := by
  intro fuel
  induction fuel with
  | zero =>
    intro page products seen tr catalog h
    simp [scrapeLoop] at h
  | succ fuel ih =>
    intro page products seen tr catalog h
    rw [scrapeLoop] at h
    by_cases hfull : maxProducts ≤ products.length
    · rw [if_pos hfull] at h
      simp only [Option.some.injEq, Prod.mk.injEq, Except.ok.injEq] at h
      obtain ⟨h1, h2⟩ := h
      subst h1
      subst h2
      exact ⟨[], by simp, List.Forall₂.nil⟩
    · rw [if_neg hfull] at h
      cases hx : extract page with
      | error e =>
        rw [hx] at h
        simp at h
      | ok pageProducts =>
        rw [hx] at h
        cases pageProducts with
        | nil =>
          simp only [List.isEmpty_nil, if_true, Option.some.injEq, Prod.mk.injEq,
            Except.ok.injEq] at h
          obtain ⟨h1, h2⟩ := h
          subst h1
          subst h2
          exact ⟨[[]], by simp, List.Forall₂.cons ⟨[], hx, List.Sublist.refl _⟩ List.Forall₂.nil⟩
        | cons q rest =>
          simp only [List.isEmpty_cons, Bool.false_eq_true, if_false] at h
          set A := addProductsWithoutDuplicates products (q :: rest) seen maxProducts with hA
          obtain ⟨new, hnew1, hnew2, _⟩ := addProducts_spec (q :: rest) products seen maxProducts
          rw [← hA] at hnew1
          by_cases hstop : A.2.2 = 0 ∧ 0 < A.1.length
          · rw [if_pos hstop] at h
            simp only [Option.some.injEq, Prod.mk.injEq, Except.ok.injEq] at h
            obtain ⟨h1, h2⟩ := h
            subst h1
            subst h2
            exact ⟨[new], by simp [hnew1], List.Forall₂.cons ⟨q :: rest, hx, hnew2⟩ List.Forall₂.nil⟩
          · rw [if_neg hstop] at h
            cases hrec : scrapeLoop extract maxProducts fuel (page + 1) A.1 A.2.1 with
            | none =>
              rw [hrec] at h
              simp at h
            | some v =>
              obtain ⟨tr2, res2⟩ := v
              rw [hrec] at h
              simp only [Option.some.injEq, Prod.mk.injEq] at h
              obtain ⟨h1, h2⟩ := h
              subst h1
              subst h2
              obtain ⟨chunks, hc1, hc2⟩ := ih (page + 1) A.1 A.2.1 tr2 catalog hrec
              refine ⟨new :: chunks, ?_, List.Forall₂.cons ⟨q :: rest, hx, hnew2⟩ hc2⟩
              rw [hc1, hnew1]
              simp

/-- The call trace is consecutive pages starting at the loop's current
page. -/
theorem scrapeLoop_range (extract : Nat → Except String (List Product))
    (maxProducts : Nat) :
    ∀ (fuel page : Nat) (products : List Product) (seen : List String)
      (tr : List Nat) (res : Except String (List Product)),
      scrapeLoop extract maxProducts fuel page products seen = some (tr, res) →
      tr = List.range' page tr.length := by
  intro fuel
  induction fuel with
  | zero =>
    intro page products seen tr res h
    simp [scrapeLoop] at h
  | succ fuel ih =>
    intro page products seen tr res h
    rw [scrapeLoop] at h
    by_cases hfull : maxProducts ≤ products.length
    · rw [if_pos hfull] at h
      simp only [Option.some.injEq, Prod.mk.injEq] at h
      obtain ⟨h1, _⟩ := h
      subst h1
      rfl
    · rw [if_neg hfull] at h
      cases hx : extract page with
      | error e =>
        rw [hx] at h
        simp only [Option.some.injEq, Prod.mk.injEq] at h
        obtain ⟨h1, _⟩ := h
        subst h1
        rfl
      | ok pageProducts =>
        rw [hx] at h
        cases pageProducts with
        | nil =>
          simp only [List.isEmpty_nil, if_true, Option.some.injEq, Prod.mk.injEq] at h
          obtain ⟨h1, _⟩ := h
          subst h1
          rfl
        | cons q rest =>
          simp only [List.isEmpty_cons, Bool.false_eq_true, if_false] at h
          set A := addProductsWithoutDuplicates products (q :: rest) seen maxProducts with hA
          by_cases hstop : A.2.2 = 0 ∧ 0 < A.1.length
          · rw [if_pos hstop] at h
            simp only [Option.some.injEq, Prod.mk.injEq] at h
            obtain ⟨h1, _⟩ := h
            subst h1
            rfl
          · rw [if_neg hstop] at h
            cases hrec : scrapeLoop extract maxProducts fuel (page + 1) A.1 A.2.1 with
            | none =>
              rw [hrec] at h
              simp at h
            | some v =>
              obtain ⟨tr2, res2⟩ := v
              rw [hrec] at h
              simp only [Option.some.injEq, Prod.mk.injEq] at h
              obtain ⟨h1, _⟩ := h
              subst h1
              have := ih (page + 1) A.1 A.2.1 tr2 res2 hrec
              simp only [List.length_cons, List.range'_succ]
              exact congrArg (List.cons page) this

/-! ## Extraction-filter facts -/

/-- Records returned by the extraction script never have an empty URL: the
script filters on URL truthiness. -/
theorem extractJSContent_url_ne (elems : List GridElem) (q : Product)
    (hq : q ∈ extractJSContent elems) : q.url ≠ "" := by
  rw [extractJSContent] at hq
  have hpred := (List.mem_filter.mp hq).2
  intro hurl
  rw [hurl] at hpred
  simp at hpred

/-- Pushing a pointwise fact about extractor outputs through the page-chunk
decomposition. -/
theorem chunks_flatten_pred (P : Product → Prop)
    (extract : Nat → Except String (List Product))
    (tr : List Nat) (chunks : List (List Product))
    (hfa : List.Forall₂ (fun pg chunk => ∃ recs,
      extract pg = Except.ok recs ∧ chunk.Sublist recs) tr chunks)
    (hex : ∀ pg recs, extract pg = Except.ok recs → ∀ q ∈ recs, P q) :
    ∀ q ∈ chunks.flatten, P q := by
  induction hfa with
  | nil => simp
  | cons hR hfa ih =>
    intro q hq
    rw [List.flatten_cons] at hq
    rcases List.mem_append.mp hq with hmem | hmem
    · obtain ⟨recs, hrecs, hsub⟩ := hR
      exact hex _ recs hrecs q (hsub.subset hmem)
    · exact ih q hmem

/-! ## Claim theorems -/

/-- C1: for every run in which some called page fails, `scrapeProducts`
returns an error naming that page, wrapped exactly as Go's
`fmt.Errorf("error scraping page %d: %w", ...)`. The `Except.error` result
carries no catalog — Go returns `nil, err` — so records accumulated from
earlier successful pages are discarded. -/
theorem pageError_aborts_run (extract : Nat → Except String (List Product))
    (maxProducts p : Nat) (e : String)
    (hp : p ∈ pagesCalled extract maxProducts)
    (he : extract p = Except.error e) :
    scrapeProducts extract maxProducts =
      Except.error ("error scraping page " ++ toString p ++ ": " ++ e) := by
  obtain ⟨tr, res, hrun⟩ := scrapeRun_eq_some extract maxProducts
  obtain ⟨hres, htr⟩ := scrapeRun_spec extract maxProducts tr res hrun
  rw [htr] at hp
  rw [hres]
  exact scrapeLoop_error_mem extract maxProducts p e (maxProducts + 1) 1 [] [] tr res hrun hp he

theorem pageError_aborts_run_witness :
    scrapeProducts extractScenarioD 5 =
      Except.error ("error scraping page " ++ toString 2 ++ ": " ++ "page load failed") :=
  pageError_aborts_run extractScenarioD 5 2 "page load failed" (by decide) rfl

/-- C2: in every successful run, no two catalog records share a URL: the
mapped URL list has no duplicates, also when the duplicate URLs arrive
within a single page. -/
theorem catalog_urls_nodup (extract : Nat → Except String (List Product))
    (maxProducts : Nat) (catalog : List Product)
    (h : scrapeProducts extract maxProducts = Except.ok catalog) :
    (catalog.map Product.url).Nodup := by
  obtain ⟨tr, res, hrun⟩ := scrapeRun_eq_some extract maxProducts
  obtain ⟨hres, _⟩ := scrapeRun_spec extract maxProducts tr res hrun
  rw [hres] at h
  subst h
  exact scrapeLoop_nodup extract maxProducts (maxProducts + 1) 1 [] [] tr catalog hrun
    (by simp) (by simp)

theorem catalog_urls_nodup_witness :
    scrapeProducts extractScenarioB 5 = Except.ok [mkProduct "/products/a"] ∧
    ([mkProduct "/products/a"].map Product.url).Nodup :=
  ⟨rfl, catalog_urls_nodup extractScenarioB 5 [mkProduct "/products/a"] rfl⟩

/-- C3: in every successful run the catalog length is at most `maxProducts`,
for any budget (`maxRecords ≥ 0` is all of `Nat`); the merge stops appending
as soon as the budget fills, even mid-page. -/
theorem catalog_length_le_max (extract : Nat → Except String (List Product))
    (maxProducts : Nat) (catalog : List Product)
    (h : scrapeProducts extract maxProducts = Except.ok catalog) :
    catalog.length ≤ maxProducts := by
  obtain ⟨tr, res, hrun⟩ := scrapeRun_eq_some extract maxProducts
  obtain ⟨hres, _⟩ := scrapeRun_spec extract maxProducts tr res hrun
  rw [hres] at h
  subst h
  exact scrapeLoop_length extract maxProducts (maxProducts + 1) 1 [] [] tr catalog hrun (by simp)

theorem catalog_length_le_max_witness :
    scrapeProducts extractScenarioA 5 =
      Except.ok [mkProduct "/products/a", mkProduct "/products/b", mkProduct "/products/c",
        mkProduct "/products/d", mkProduct "/products/e"] ∧
    [mkProduct "/products/a", mkProduct "/products/b", mkProduct "/products/c",
        mkProduct "/products/d", mkProduct "/products/e"].length ≤ 5 :=
  ⟨rfl, catalog_length_le_max extractScenarioA 5
    [mkProduct "/products/a", mkProduct "/products/b", mkProduct "/products/c",
      mkProduct "/products/d", mkProduct "/products/e"] rfl⟩

/-- C4: the pagination loop terminates for every extractor behaviour —
pages may repeat earlier content forever or run dry — because every
iteration either adds at least one record (at most `maxProducts` times) or
takes a stop branch; `maxProducts + 1` loop iterations always suffice, so the
fuelled run is `some`. -/
theorem scrapeLoop_terminates (extract : Nat → Except String (List Product))
    (maxProducts : Nat) :
    (scrapeRun extract maxProducts).isSome = true :=
  scrapeLoop_total extract maxProducts (maxProducts + 1) 1 [] []
    (by simp) (fun _ => rfl) (by simp)

/-- C5: no record in a catalog assembled through `extractProductsFromPage`
has an empty URL, whatever the site serves: the extraction script filters
out records whose URL is empty before returning them. -/
theorem catalog_has_no_empty_url (site : Nat → PageOutcome) (maxProducts : Nat)
    (catalog : List Product) (q : Product)
    (h : scrapeProducts (extractProductsFromPage site) maxProducts = Except.ok catalog)
    (hq : q ∈ catalog) : q.url ≠ "" := by
  obtain ⟨tr, res, hrun⟩ := scrapeRun_eq_some (extractProductsFromPage site) maxProducts
  obtain ⟨hres, _⟩ := scrapeRun_spec (extractProductsFromPage site) maxProducts tr res hrun
  rw [hres] at h
  subst h
  obtain ⟨chunks, hc1, hc2⟩ := scrapeLoop_chunks (extractProductsFromPage site) maxProducts
    (maxProducts + 1) 1 [] [] tr catalog hrun
  rw [hc1, List.nil_append] at hq
  refine chunks_flatten_pred (fun r => r.url ≠ "") (extractProductsFromPage site)
    tr chunks hc2 ?_ q hq
  intro pg recs hrecs r hr
  rw [extractProductsFromPage] at hrecs
  cases hsite : site pg with
  | loadError cause =>
    rw [hsite] at hrecs
    simp at hrecs
  | loaded elems =>
    rw [hsite] at hrecs
    simp only [Except.ok.injEq] at hrecs
    subst hrecs
    exact extractJSContent_url_ne elems r hr

theorem catalog_has_no_empty_url_witness :
    (gridElemToRecord gridElemA).url ≠ "" :=
  catalog_has_no_empty_url siteOneProduct 5 [gridElemToRecord gridElemA]
    (gridElemToRecord gridElemA) rfl (List.mem_cons_self _ _)

/-- C6: when a fetched page comes back non-empty but contributes zero new
unique records while the catalog already has content, the loop stops right
there: from that iteration the call trace is just this page — no later page
is ever fetched — and the result is success with the accumulated catalog. -/
theorem noNewProducts_stops_run (extract : Nat → Except String (List Product))
    (maxProducts fuel page : Nat) (products : List Product) (seen : List String)
    (pageProducts : List Product)
    (hlen : products.length < maxProducts)
    (hx : extract page = Except.ok pageProducts)
    (hne : pageProducts ≠ [])
    (hadd : (addProductsWithoutDuplicates products pageProducts seen maxProducts).2.2 = 0)
    (hcat : products ≠ []) :
    scrapeLoop extract maxProducts (fuel + 1) page products seen =
      some ([page], Except.ok products) := by
  rw [scrapeLoop, if_neg (Nat.not_le.mpr hlen), hx]
  cases pageProducts with
  | nil => exact absurd rfl hne
  | cons q rest =>
    simp only [List.isEmpty_cons, Bool.false_eq_true, if_false]
    have hzero := addProducts_zero (q :: rest) products seen maxProducts hadd
    have hstop : (addProductsWithoutDuplicates products (q :: rest) seen maxProducts).2.2 = 0 ∧
        0 < (addProductsWithoutDuplicates products (q :: rest) seen maxProducts).1.length := by
      refine ⟨hadd, ?_⟩
      rw [hzero.1]
      cases products with
      | nil => exact absurd rfl hcat
      | cons a l => simp
    rw [if_pos hstop, hzero.1]

theorem noNewProducts_stops_run_witness :
    pagesCalled extractScenarioC 5 = [1, 2] ∧
    scrapeProducts extractScenarioC 5 =
      Except.ok [mkProduct "/products/a", mkProduct "/products/b"] ∧
    scrapeLoop extractScenarioC 5 5 2
        [mkProduct "/products/a", mkProduct "/products/b"]
        ["/products/b", "/products/a"] =
      some ([2], Except.ok [mkProduct "/products/a", mkProduct "/products/b"]) :=
  ⟨rfl, rfl,
    noNewProducts_stops_run extractScenarioC 5 4 2
      [mkProduct "/products/a", mkProduct "/products/b"]
      ["/products/b", "/products/a"]
      [mkProduct "/products/a", mkProduct "/products/b"]
      (by decide) rfl (List.cons_ne_nil _ _) rfl (List.cons_ne_nil _ _)⟩

/-- C7: when the extractor returns an empty record list, the loop stops
fetching right there and returns the catalog accumulated so far as a
success; in particular an empty first page gives a successful empty run. -/
theorem emptyPage_stops_run (extract : Nat → Except String (List Product))
    (maxProducts fuel page : Nat) (products : List Product) (seen : List String)
    (hlen : products.length < maxProducts)
    (hx : extract page = Except.ok []) :
    scrapeLoop extract maxProducts (fuel + 1) page products seen =
      some ([page], Except.ok products) := by
  rw [scrapeLoop, if_neg (Nat.not_le.mpr hlen), hx]
  rfl

theorem emptyPage_stops_run_witness :
    scrapeProducts extractScenarioE 5 = Except.ok [] ∧
    scrapeRun extractScenarioE 5 = some ([1], Except.ok []) :=
  ⟨rfl, emptyPage_stops_run extractScenarioE 5 5 1 [] [] (by decide) rfl⟩

/-- C8: the catalog of a successful run decomposes as one chunk per called
page, concatenated in page order, each chunk a subsequence — source order
preserved — of what the extractor returned for that page: survivors keep the
order their URLs were first observed, within pages and across pages. -/
theorem catalog_preserves_page_order (extract : Nat → Except String (List Product))
    (maxProducts : Nat) (tr : List Nat) (catalog : List Product)
    (h : scrapeRun extract maxProducts = some (tr, Except.ok catalog)) :
    ∃ chunks : List (List Product),
      catalog = chunks.flatten ∧
      List.Forall₂ (fun pg chunk => ∃ recs,
        extract pg = Except.ok recs ∧ chunk.Sublist recs) tr chunks := by
  obtain ⟨chunks, hc1, hc2⟩ :=
    scrapeLoop_chunks extract maxProducts (maxProducts + 1) 1 [] [] tr catalog h
  exact ⟨chunks, by simpa using hc1, hc2⟩

theorem catalog_preserves_page_order_witness :
    ∃ chunks : List (List Product),
      [mkProduct "/products/a"] = chunks.flatten ∧
      List.Forall₂ (fun pg chunk => ∃ recs,
        extractOnePage pg = Except.ok recs ∧ chunk.Sublist recs) [1, 2] chunks :=
  catalog_preserves_page_order extractOnePage 5 [1, 2] [mkProduct "/products/a"] rfl

/-- C9: every run fetches pages 1, 2, 3, … in order: the call trace is the
consecutive range starting at 1, with nothing skipped or repeated, so every
call meets the extractor precondition `pageIndex ≥ 1`. -/
theorem pages_called_sequential (extract : Nat → Except String (List Product))
    (maxProducts : Nat) :
    pagesCalled extract maxProducts =
      List.range' 1 (pagesCalled extract maxProducts).length ∧
    ∀ p ∈ pagesCalled extract maxProducts, 1 ≤ p := by
  obtain ⟨tr, res, hrun⟩ := scrapeRun_eq_some extract maxProducts
  obtain ⟨_, htr⟩ := scrapeRun_spec extract maxProducts tr res hrun
  have hr := scrapeLoop_range extract maxProducts (maxProducts + 1) 1 [] [] tr res hrun
  rw [htr]
  refine ⟨hr, ?_⟩
  intro p hp
  rw [hr] at hp
  rw [List.mem_range'] at hp
  omega

/-- C10: the run is a pure function of the extractor's input-output mapping
and the budget: extensionally equal collaborators give identical results and
identical call traces — there is no hidden state beyond the seen set and
accumulator the loop builds itself. -/
theorem scrape_deterministic (extract1 extract2 : Nat → Except String (List Product))
    (maxProducts : Nat) (h : ∀ p, extract1 p = extract2 p) :
    scrapeProducts extract1 maxProducts = scrapeProducts extract2 maxProducts ∧
    pagesCalled extract1 maxProducts = pagesCalled extract2 maxProducts := by
  have he : extract1 = extract2 := funext h
  rw [he]
  exact ⟨rfl, rfl⟩

theorem scrape_deterministic_witness :
    scrapeProducts extractNothingPlain 5 = scrapeProducts extractNothingSplit 5 ∧
    pagesCalled extractNothingPlain 5 = pagesCalled extractNothingSplit 5 :=
  scrape_deterministic extractNothingPlain extractNothingSplit 5
    (fun p => by rw [extractNothingPlain, extractNothingSplit, ite_self])
